import Mathlib

/-
  Verification of the chunked audio capture/upload/reassembly pipeline of the
  Trans-script repository.

  The development shallowly embeds the TypeScript sources:
  * `src/lib/chunk-validation.ts`  — `validateChunkSequence`
  * `src/app/api/sessions/[id]/chunks/[chunkIndex]/transcript/route.ts`
    (second document, `POST /api/sessions/[id]/chunks`) — chunk upload with
    its index-window check and create-or-overwrite storage
  * `src/lib/chunk-playback.ts` — `getChunksForPlayback` (local-first
    reassembly with server fallback)
  * `src/app/api/sessions/[id]/transcribe/route.ts` — combined transcription
    input
  * `src/lib/indexeddb.ts` — best-effort local chunk store
  * `src/hooks/useAudioRecorder.ts` — `stop` (bounded wait + state cleanup)

  Conventions: JavaScript numbers used as chunk indices are modelled as `Int`
  (`Option Int` where the code can see a `NaN` from `parseInt`); float
  durations are modelled as `ℚ`; byte payloads (Blobs / base64 strings) as
  `List Nat` (a base64 string is empty exactly when the byte payload is, and
  the code only ever compares lengths to zero, so bytes are used throughout);
  the external databases (Prisma store, IndexedDB object stores) are explicit
  list-valued states threaded through the functions.
-/

namespace TransScript

/-! ## chunk-validation.ts -/

/-- Result record of `validateChunkSequence` (`ChunkSequenceInfo` in
`src/lib/chunk-validation.ts`). -/
structure ChunkSequenceInfo where
  isValid : Bool
  gaps : List Int
  duplicates : List Int
  expectedCount : Int
  actualCount : Nat
  lastIndex : Int
deriving DecidableEq, Repr

/-- Ascending numeric sort, modelling `[...chunkIndices].sort((a, b) => a - b)`. -/
def sortInts (l : List Int) : List Int :=
  List.insertionSort (fun a b => a ≤ b) l

/-- Duplicate detection loop of `validateChunkSequence`: walks the sorted
list with a `seen` set, pushing every index already seen. -/
def collectDuplicates : List Int → List Int → List Int
  | [], _ => []
  | x :: xs, seen =>
    if x ∈ seen then x :: collectDuplicates xs (x :: seen)
    else collectDuplicates xs (x :: seen)

/-- Integer interval `[a..b]` (empty when `b < a`), modelling
`for (let i = firstIndex; i <= lastIndex; i++)`. -/
def intRange (a b : Int) : List Int :=
  (List.range (b - a + 1).toNat).map (fun k : Nat => a + (k : Int))

/-- Local `firstIndex = sorted[0]` of `validateChunkSequence` (the smallest
present index; the default is never read on the non-empty path). -/
def vcsFirst (chunkIndices : List Int) : Int :=
  (sortInts chunkIndices).headD 0

/-- Local `lastIndex = sorted[sorted.length - 1]` of `validateChunkSequence`. -/
def vcsLast (chunkIndices : List Int) : Int :=
  (sortInts chunkIndices).getLastD 0

/-- Gap loop of `validateChunkSequence`: every `i` from `firstIndex` to
`lastIndex` that the (sorted) index list does not contain. -/
def vcsGaps (chunkIndices : List Int) : List Int :=
  (intRange (vcsFirst chunkIndices) (vcsLast chunkIndices)).filter
    (fun i => decide (i ∉ sortInts chunkIndices))

/-- Duplicate list of `validateChunkSequence` (walk of the sorted list). -/
def vcsDuplicates (chunkIndices : List Int) : List Int :=
  collectDuplicates (sortInts chunkIndices) []

/-- Embedding of `validateChunkSequence` in `src/lib/chunk-validation.ts`:
sorts the indices, collects duplicates, and reports as `gaps` every integer
between the smallest and the largest present index that is not present. -/
def validateChunkSequence (chunkIndices : List Int) : ChunkSequenceInfo :=
  if chunkIndices.length = 0 then
    { isValid := true, gaps := [], duplicates := [], expectedCount := 0,
      actualCount := 0, lastIndex := -1 }
  else
    { isValid := (vcsGaps chunkIndices).length == 0 &&
        (vcsDuplicates chunkIndices).length == 0,
      gaps := vcsGaps chunkIndices,
      duplicates := vcsDuplicates chunkIndices,
      expectedCount := vcsLast chunkIndices - vcsFirst chunkIndices + 1,
      actualCount := chunkIndices.length,
      lastIndex := vcsLast chunkIndices }

/-! ## Upload endpoint (`POST /api/sessions/[id]/chunks`) -/

/-- Outcome of the chunk-index check in the upload route: accepted silently
(the expected index), accepted after a logged warning (retry / limited
parallelism), or rejected with HTTP 400. -/
inductive ChunkDecision where
  | acceptSilent
  | acceptWarn
  | reject
deriving DecidableEq, Repr

/-- Index-window check of the upload route (lines 234-274 of the chunks
route).  `last?` is the largest stored `chunkIndex` of the session
(`findMany orderBy desc take 1`), `none` when the session has no chunks.
The expected index is `L + 1`; the code rejects exactly when
`chunkIndex < L - 1 || chunkIndex > expectedIndex + 5`, warns on every other
index different from the expected one, and in the no-chunks case rejects
exactly when `chunkIndex > 5` (by way of `chunkIndex !== 0 && chunkIndex > 5`). -/
def chunkIndexDecision : Option Int → Int → ChunkDecision
  | some L, chunkIndex =>
    -- expectedIndex = L + 1
    if chunkIndex = L + 1 then .acceptSilent
    else if chunkIndex < L ∨ L + 1 + 5 < chunkIndex then
      if chunkIndex < L - 1 ∨ L + 1 + 5 < chunkIndex then .reject
      else .acceptWarn
    else .acceptWarn
  | none, chunkIndex =>
    if chunkIndex ≠ 0 then
      if 5 < chunkIndex then .reject else .acceptSilent
    else .acceptSilent

/-- Stored `AudioChunk` row of the Prisma database.  `audioData` is the
(nullable) base64 payload, modelled as bytes. -/
structure ChunkRecord where
  id : String
  sessionId : String
  chunkIndex : Int
  audioData : Option (List Nat)
  duration : ℚ
  transcript : Option String
  timestamp : Int
deriving DecidableEq, Repr

/-- Durable server-side store: the `AudioChunk` table plus the per-session
`chunksCount` counter of the `Session` table. -/
structure DurableStore where
  chunks : List ChunkRecord
  chunksCount : String → Nat

/-- Derived chunk id: the template literal `` `${sessionId}-${chunkIndex}` ``. -/
def chunkId (sessionId : String) (chunkIndex : Int) : String :=
  sessionId ++ "-" ++ toString chunkIndex

/-- JavaScript `transcript || null`: an empty string is coerced to null. -/
def jsOrNull : Option String → Option String
  | some s => if s = "" then none else some s
  | none => none

/-- Chunks of one session (`findMany where sessionId`). -/
def sessionChunks (db : DurableStore) (sessionId : String) : List ChunkRecord :=
  db.chunks.filter (fun c => decide (c.sessionId = sessionId))

/-- Largest stored chunk index of a list of rows, modelling
`findMany orderBy chunkIndex desc, take 1` followed by reading
`existingChunks[0].chunkIndex`. -/
def lastIndex? (l : List ChunkRecord) : Option Int :=
  (List.insertionSort (fun a b : Int => b ≤ a) (l.map (fun c => c.chunkIndex))).head?

/-- Successful upload outcome: the new store state, whether a warning was
logged, and whether a new row was created (vs. an idempotent overwrite). -/
structure UploadOk where
  db : DurableStore
  warned : Bool
  isNewChunk : Bool

/-- Embedding of the upload handler body (lines 223-322 of the chunks route,
after request parsing and auth): run the index-window check, then
create-or-overwrite the row with the derived id, incrementing the session's
`chunksCount` only when a new row is created.  An `Except.error` models the
HTTP 400 `ChunkIndexOutOfRange` response. -/
def postChunk (db : DurableStore) (sessionId : String) (chunkIndex : Int)
    (audioData : List Nat) (duration : ℚ) (transcript : Option String)
    (now : Int) : Except String UploadOk :=
  let decision := chunkIndexDecision (lastIndex? (sessionChunks db sessionId)) chunkIndex
  if decision = ChunkDecision.reject then
    Except.error "Invalid chunk index"
  else
    let id := chunkId sessionId chunkIndex
    if db.chunks.any (fun c => c.id == id) then
      Except.ok
        { db :=
            { chunks := db.chunks.map (fun c =>
                if c.id == id then
                  { c with audioData := some audioData, duration := duration,
                           transcript := jsOrNull transcript }
                else c),
              chunksCount := db.chunksCount },
          warned := decide (decision = ChunkDecision.acceptWarn),
          isNewChunk := false }
    else
      Except.ok
        { db :=
            { chunks := db.chunks ++
                [{ id := id, sessionId := sessionId, chunkIndex := chunkIndex,
                   audioData := some audioData, duration := duration,
                   transcript := jsOrNull transcript, timestamp := now }],
              chunksCount := fun s =>
                if s = sessionId then db.chunksCount s + 1 else db.chunksCount s },
          warned := decide (decision = ChunkDecision.acceptWarn),
          isNewChunk := true }

/-! ## First-chunk check with JavaScript number semantics (NaN-aware) -/

/-- Result of `parseInt(chunkIndexStr, 10)`: an integer, or `none` for `NaN`
(non-numeric `chunkIndex` form field). -/
abbrev JSNum := Option Int

/-- JavaScript `x > b` for a possibly-NaN left operand: every comparison
with NaN is false. -/
def jsGtB (a : JSNum) (b : Int) : Bool :=
  match a with
  | none => false
  | some v => decide (b < v)

/-- JavaScript `x !== b`: NaN is unequal to everything. -/
def jsNeB (a : JSNum) (b : Int) : Bool :=
  match a with
  | none => true
  | some v => decide (v ≠ b)

/-- String interpolation of a JS number (`NaN` stringifies to `"NaN"`). -/
def jsNumToString : JSNum → String
  | none => "NaN"
  | some v => toString v

/-- Derived chunk id for a possibly-NaN parsed index. -/
def jsChunkId (sessionId : String) (x : JSNum) : String :=
  sessionId ++ "-" ++ jsNumToString x

/-- The first-chunk validation of the upload route (lines 264-274): with no
stored chunks, `if (chunkIndex !== 0) { if (chunkIndex > 5) reject }`. -/
def firstChunkRejected (x : JSNum) : Bool :=
  jsNeB x 0 && jsGtB x 5

/-- Stored chunk row as created when the parsed index may be NaN. -/
structure JSChunkRecord where
  id : String
  sessionId : String
  chunkIndex : JSNum
  audioData : Option (List Nat)
  duration : ℚ
  transcript : Option String
  timestamp : Int
deriving DecidableEq, Repr

/-- Upload of a chunk to a session with no stored chunks yet, keeping the
JavaScript NaN semantics of the parsed index: the first-chunk check either
rejects (`none`, an HTTP 400) or the handler creates the row under the
derived id. -/
def uploadFirstChunk (sessionId : String) (x : JSNum) (audioData : List Nat)
    (duration : ℚ) (now : Int) : Option JSChunkRecord :=
  if firstChunkRejected x then none
  else
    some { id := jsChunkId sessionId x, sessionId := sessionId,
           chunkIndex := x, audioData := some audioData, duration := duration,
           transcript := none, timestamp := now }

/-! ## chunk-playback.ts -/

/-- A chunk cached in IndexedDB (`AudioChunkData` in `src/lib/indexeddb.ts`). -/
structure LocalChunkData where
  id : String
  sessionId : String
  chunkIndex : Int
  blob : List Nat
  timestamp : Int
deriving DecidableEq, Repr

/-- An entry of `ChunkPlaybackData.chunks` in `src/lib/chunk-playback.ts`. -/
structure PlaybackChunk where
  blob : List Nat
  index : Int
  duration : ℚ
  timestamp : Int
deriving DecidableEq, Repr

/-- Result of `getChunksForPlayback`.  `audioBytes` is the byte content of
the combined Blob behind `audioUrl` (`none` models a null `audioUrl`). -/
structure ChunkPlaybackData where
  chunks : List PlaybackChunk
  totalDuration : ℚ
  audioBytes : Option (List Nat)
  error : Option String
deriving DecidableEq, Repr

instance : IsTotal PlaybackChunk (fun a b => a.index ≤ b.index) :=
  ⟨fun a b => le_total a.index b.index⟩

instance : IsTrans PlaybackChunk (fun a b => a.index ≤ b.index) :=
  ⟨fun _ _ _ h₁ h₂ => le_trans h₁ h₂⟩

/-- In-place `chunks.sort((a, b) => a.index - b.index)`. -/
def sortByIndex (l : List PlaybackChunk) : List PlaybackChunk :=
  List.insertionSort (fun a b => a.index ≤ b.index) l

/-- Conversion of a stored server row to a playback chunk (lines 104-125 of
`chunk-playback.ts`): decode `audioData` (an absent payload becomes an empty
blob) and take the stored duration. -/
def serverToPlayback (c : ChunkRecord) : PlaybackChunk :=
  { blob := c.audioData.getD [], index := c.chunkIndex,
    duration := c.duration, timestamp := c.timestamp }

/-- Server branch of `getChunksForPlayback` (lines 89-175): on an empty
response report `No chunks found`; otherwise decode, filter out chunks with
no audio bytes or non-positive duration, sort by index, sum the durations
and concatenate the payloads. -/
def serverPlayback (serverChunks : List ChunkRecord) : ChunkPlaybackData :=
  if serverChunks.length = 0 then
    { chunks := [], totalDuration := 0, audioBytes := none,
      error := some "No chunks found" }
  else
    let chunks := (serverChunks.map serverToPlayback).filter
      (fun c => decide (0 < c.blob.length ∧ 0 < c.duration))
    let sorted := sortByIndex chunks
    { chunks := sorted,
      totalDuration := (sorted.map (fun c => c.duration)).sum,
      audioBytes := some ((sorted.map (fun c => c.blob)).flatten),
      error := none }

/-- Local (IndexedDB) branch of `getChunksForPlayback` (lines 30-77):
`fetched` is what `getChunks` returned.  Keep the non-empty blobs with a
nominal 30-second duration; `none` means zero usable chunks, falling through
to the server fetch. -/
def localPlayback (fetched : List LocalChunkData) : Option ChunkPlaybackData :=
  if fetched.length = 0 then none
  else
    let chunks := (fetched.filter (fun c => decide (0 < c.blob.length))).map
      (fun c => ({ blob := c.blob, index := c.chunkIndex, duration := (30 : ℚ),
                   timestamp := c.timestamp } : PlaybackChunk))
    if chunks.length = 0 then none
    else
      some { chunks := chunks,
             totalDuration := (chunks.map (fun c => c.duration)).sum,
             audioBytes := some ((chunks.map (fun c => c.blob)).flatten),
             error := none }

/-- Embedding of `getChunksForPlayback`: prefer the local cache; fall back
to the server response exactly when the local branch yields no usable chunk.
The second component records whether the server was consulted. -/
def getChunksForPlayback (localFetched : List LocalChunkData)
    (serverChunks : List ChunkRecord) : ChunkPlaybackData × Bool :=
  match localPlayback localFetched with
  | some d => (d, false)
  | none => (serverPlayback serverChunks, true)

/-! ## Transcribe route (`POST /api/sessions/[id]/transcribe`) -/

instance : IsTotal ChunkRecord (fun a b => a.chunkIndex ≤ b.chunkIndex) :=
  ⟨fun a b => le_total a.chunkIndex b.chunkIndex⟩

instance : IsTrans ChunkRecord (fun a b => a.chunkIndex ≤ b.chunkIndex) :=
  ⟨fun _ _ _ h₁ h₂ => le_trans h₁ h₂⟩

/-- Database read order of the transcribe route:
`findMany orderBy chunkIndex asc`. -/
def sortRecords (l : List ChunkRecord) : List ChunkRecord :=
  List.insertionSort (fun a b => a.chunkIndex ≤ b.chunkIndex) l

/-- Filter of the transcribe route (lines 72-74):
`chunk.audioData && chunk.audioData.length > 0` — only the payload length is
checked, not the duration. -/
def transcribeWithAudio (l : List ChunkRecord) : List ChunkRecord :=
  (sortRecords l).filter (fun c => decide (0 < (c.audioData.getD []).length))

/-- Combined audio buffer sent to transcription (lines 88-91):
`Buffer.concat` of the decoded payloads of the kept chunks, in index order. -/
def transcribeCombined (l : List ChunkRecord) : List Nat :=
  ((transcribeWithAudio l).map (fun c => c.audioData.getD [])).flatten

/-! ## indexeddb.ts — best-effort local store -/

/-- Environment of an IndexedDB call: the backend may be absent
(`typeof indexedDB === 'undefined'`), opening the database may throw
(the `catch` branches), a request may fire `onerror`, or everything works. -/
inductive IDBEnv where
  | unavailable
  | openError
  | requestError
  | ok
deriving DecidableEq, Repr

/-- Success/failure result value of the IndexedDB helpers. -/
structure OpResult where
  success : Bool
  error : Option String
deriving DecidableEq, Repr

instance : IsTotal LocalChunkData (fun a b => a.chunkIndex ≤ b.chunkIndex) :=
  ⟨fun a b => le_total a.chunkIndex b.chunkIndex⟩

instance : IsTrans LocalChunkData (fun a b => a.chunkIndex ≤ b.chunkIndex) :=
  ⟨fun _ _ _ h₁ h₂ => le_trans h₁ h₂⟩

/-- Successful-path result of `getChunks`: the session's cached chunks
sorted by `chunkIndex` (`request.result.sort((a, b) => a.chunkIndex - b.chunkIndex)`). -/
def getChunksOkSorted (store : List LocalChunkData) (sessionId : String) :
    List LocalChunkData :=
  List.insertionSort (fun a b => a.chunkIndex ≤ b.chunkIndex)
    (store.filter (fun c => decide (c.sessionId = sessionId)))

/-- Embedding of `storeChunk`: every failure mode resolves to a
`success: false` result carrying an error message; success `put`s the chunk
(keyed overwrite by `id`). -/
def storeChunk (env : IDBEnv) (store : List LocalChunkData)
    (chunk : LocalChunkData) : OpResult × List LocalChunkData :=
  match env with
  | .unavailable =>
    (⟨false, some "IndexedDB not available - using server storage only"⟩, store)
  | .openError => (⟨false, some "Unknown IndexedDB error"⟩, store)
  | .requestError =>
    (⟨false, some "IndexedDB storage failed - using server storage only"⟩, store)
  | .ok =>
    (⟨true, none⟩, store.filter (fun c => decide (c.id ≠ chunk.id)) ++ [chunk])

/-- Result value of `getChunks`. -/
structure GetChunksResult where
  chunks : List LocalChunkData
  error : Option String
deriving DecidableEq, Repr

/-- Embedding of `getChunks`: every failure mode resolves to an empty chunk
list with an error message. -/
def getChunks (env : IDBEnv) (store : List LocalChunkData) (sessionId : String) :
    GetChunksResult :=
  match env with
  | .unavailable => ⟨[], some "IndexedDB not available"⟩
  | .openError => ⟨[], some "Unknown IndexedDB error"⟩
  | .requestError => ⟨[], some "Failed to retrieve chunks from IndexedDB"⟩
  | .ok => ⟨getChunksOkSorted store sessionId, none⟩

/-- Embedding of `deleteChunks`: cursor-deletes every chunk of the session;
every failure mode resolves to a `success: false` result. -/
def deleteChunks (env : IDBEnv) (store : List LocalChunkData)
    (sessionId : String) : OpResult × List LocalChunkData :=
  match env with
  | .unavailable => (⟨false, some "IndexedDB not available"⟩, store)
  | .openError => (⟨false, some "Unknown IndexedDB error"⟩, store)
  | .requestError => (⟨false, some "Failed to delete chunks from IndexedDB"⟩, store)
  | .ok => (⟨true, none⟩, store.filter (fun c => decide (c.sessionId ≠ sessionId)))

/-! ## Recording state and `useAudioRecorder.stop` -/

/-- Capture mode of a recording (`'mic' | 'system'`). -/
inductive CaptureMode where
  | mic
  | system
deriving DecidableEq, Repr

/-- Persisted `RecordingState` row (keyed by `sessionId`). -/
structure RecordingStateData where
  sessionId : String
  isRecording : Bool
  isPaused : Bool
  startTime : Int
  pausedTime : Int
  totalPausedDuration : Int
  chunkCount : Nat
  mode : CaptureMode
deriving DecidableEq, Repr

/-- Embedding of `deleteRecordingState`: `store.delete(sessionId)` on the
keyed object store; every failure mode resolves to `success: false`. -/
def deleteRecordingState (env : IDBEnv) (states : List RecordingStateData)
    (sessionId : String) : OpResult × List RecordingStateData :=
  match env with
  | .unavailable => (⟨false, some "IndexedDB not available"⟩, states)
  | .openError => (⟨false, some "Unknown IndexedDB error"⟩, states)
  | .requestError => (⟨false, some "Failed to delete recording state"⟩, states)
  | .ok => (⟨true, none⟩, states.filter (fun s => decide (s.sessionId ≠ sessionId)))

/-- The 10-second cap on waiting for in-flight chunk uploads
(`maxWaitTime = 10000` in `useAudioRecorder.stop`). -/
def maxWaitTime : Nat := 10000

/-- One pass of the wait loop of `stop`: while pending chunks remain and
less than `maxWaitTime` ms have elapsed, sleep 500 ms and re-check.
`pendingAt t` is the number of pending chunk operations `t` ms after the
wait started.  Twenty iterations of 500 ms are exactly the iterations the
10-second cap admits, so the fuel never runs out before the loop condition
turns false. -/
def stopWaitGo (pendingAt : Nat → Nat) : Nat → Nat → Nat
  | 0, t => t
  | fuel + 1, t =>
    if 0 < pendingAt t ∧ t < maxWaitTime then stopWaitGo pendingAt fuel (t + 500)
    else t

/-- Total time spent in the wait loop of `stop`. -/
def stopWait (pendingAt : Nat → Nat) : Nat :=
  stopWaitGo pendingAt 20 0

/-- Observable outcome of `useAudioRecorder.stop` (lines 219-263): how long
it waited for pending uploads, the persisted recording states after the
cleanup, and how many uploads were still pending when it returned. -/
structure StopOutcome where
  waitedMs : Nat
  statesAfter : List RecordingStateData
  pendingAtReturn : Nat

/-- Embedding of the clean-stop path of `useAudioRecorder.stop`: wait
(bounded) for pending chunk uploads, then delete the persisted
`RecordingState` for the session, proceeding regardless of how many uploads
are still pending. -/
def stopRecording (env : IDBEnv) (sessionId : String)
    (states : List RecordingStateData) (pendingAt : Nat → Nat) : StopOutcome :=
  let t := stopWait pendingAt
  { waitedMs := t,
    statesAfter := (deleteRecordingState env states sessionId).2,
    pendingAtReturn := pendingAt t }

/-! ## Concrete sample data used to instantiate the theorems -/

/-- Sample stored chunk of session `s` at index 0 (payload byte `10`). -/
def rec0 : ChunkRecord :=
  { id := "s-0", sessionId := "s", chunkIndex := 0, audioData := some [10],
    duration := 30, transcript := none, timestamp := 0 }

/-- Sample stored chunk of session `s` at index 1 (payload byte `11`). -/
def rec1 : ChunkRecord :=
  { id := "s-1", sessionId := "s", chunkIndex := 1, audioData := some [11],
    duration := 30, transcript := none, timestamp := 0 }

/-- Sample stored chunk of session `s` at index 3 (payload byte `13`). -/
def rec3 : ChunkRecord :=
  { id := "s-3", sessionId := "s", chunkIndex := 3, audioData := some [13],
    duration := 30, transcript := none, timestamp := 0 }

/-- A stored chunk with audio bytes but duration 0 (a corrupt entry). -/
def zeroDurationChunk : ChunkRecord :=
  { id := "s-7", sessionId := "s", chunkIndex := 7, audioData := some [7],
    duration := 0, transcript := none, timestamp := 0 }

/-- A stored chunk with an empty payload (a placeholder entry). -/
def emptyAudioChunk : ChunkRecord :=
  { id := "s-9", sessionId := "s", chunkIndex := 9, audioData := some [],
    duration := 30, transcript := none, timestamp := 0 }

/-- Durable store holding only `rec0` (session `s` has one chunk, count 1). -/
def demoDb : DurableStore :=
  { chunks := [rec0], chunksCount := fun _ => 1 }

/-- Empty durable store. -/
def emptyDb : DurableStore :=
  { chunks := [], chunksCount := fun _ => 0 }

/-- Outcome of the first demo upload (`postChunk emptyDb "s" 0 [1] 30 none 0`):
a fresh row is created and the session count becomes 1. -/
def demoR1 : UploadOk :=
  { db := { chunks := [{ id := "s-0", sessionId := "s", chunkIndex := 0,
                         audioData := some [1], duration := 30,
                         transcript := none, timestamp := 0 }],
            chunksCount := fun s => if s = "s" then emptyDb.chunksCount s + 1
              else emptyDb.chunksCount s },
    warned := false, isNewChunk := true }

/-- Outcome of re-uploading index 0 (`postChunk demoR1.db "s" 0 [9] 31 none 5`):
the row is overwritten in place and the count stays 1. -/
def demoR2 : UploadOk :=
  { db := { chunks := [{ id := "s-0", sessionId := "s", chunkIndex := 0,
                         audioData := some [9], duration := 31,
                         transcript := none, timestamp := 0 }],
            chunksCount := demoR1.db.chunksCount },
    warned := true, isNewChunk := false }

/-- Chunk row created for a `NaN` parsed index: the derived id is `"s-NaN"`. -/
def demoNaNRec : JSChunkRecord :=
  { id := "s-NaN", sessionId := "s", chunkIndex := none, audioData := some [1],
    duration := 30, transcript := none, timestamp := 0 }

/-- Sample IndexedDB-cached chunk. -/
def demoLocalChunk : LocalChunkData :=
  { id := "s-0", sessionId := "s", chunkIndex := 0, blob := [1], timestamp := 0 }

/-- Sample persisted recording state for session `a`. -/
def demoStateA : RecordingStateData :=
  { sessionId := "a", isRecording := true, isPaused := false, startTime := 0,
    pausedTime := 0, totalPausedDuration := 0, chunkCount := 2, mode := .mic }

/-- Sample persisted recording state for session `b`. -/
def demoStateB : RecordingStateData :=
  { sessionId := "b", isRecording := false, isPaused := false, startTime := 0,
    pausedTime := 0, totalPausedDuration := 0, chunkCount := 0, mode := .system }

/-! ## General list lemmas -/

/-- Two permuted lists that are both strictly sorted on an integer key are
equal. -/
theorem eq_of_perm_of_pairwise_lt {α : Type} {key : α → Int} :
    ∀ {l₁ l₂ : List α}, List.Perm l₁ l₂ →
      l₁.Pairwise (fun a b => key a < key b) →
      l₂.Pairwise (fun a b => key a < key b) → l₁ = l₂ := by
  intro l₁
  induction l₁ with
  | nil => intro l₂ hp _ _; exact (hp.symm.eq_nil).symm
  | cons a t ih =>
    intro l₂ hp h₁ h₂
    cases l₂ with
    | nil => exact absurd hp.eq_nil (by simp)
    | cons b t₂ =>
      have hab : a = b := by
        by_contra hne
        have ha2 : a ∈ b :: t₂ := hp.mem_iff.mp (List.mem_cons_self a t)
        have hb1 : b ∈ a :: t := hp.mem_iff.mpr (List.mem_cons_self b t₂)
        have ha : a ∈ t₂ := by
          rcases List.mem_cons.mp ha2 with h | h
          · exact absurd h hne
          · exact h
        have hb : b ∈ t := by
          rcases List.mem_cons.mp hb1 with h | h
          · exact absurd h.symm hne
          · exact h
        have hlt₁ : key a < key b := List.rel_of_pairwise_cons h₁ hb
        have hlt₂ : key b < key a := List.rel_of_pairwise_cons h₂ ha
        omega
      subst hab
      rw [ih hp.cons_inv h₁.of_cons h₂.of_cons]

/-- A list sorted on an integer key whose keys contain no duplicate is
strictly sorted on that key. -/
theorem pairwise_lt_of_sorted_nodup {α : Type} {key : α → Int} {l : List α}
    (hs : l.Pairwise (fun a b => key a ≤ key b)) (hn : (l.map key).Nodup) :
    l.Pairwise (fun a b => key a < key b) := by
  have hne : l.Pairwise (fun a b => key a ≠ key b) := List.pairwise_map.mp hn
  exact (hs.and hne).imp (fun h => lt_of_le_of_ne h.1 h.2)

/-- Insertion sort on an integer key is determined by the multiset of
elements when the keys are duplicate-free. -/
theorem insertionSort_key_eq {α : Type} (key : α → Int)
    {l₁ l₂ : List α} (hp : List.Perm l₁ l₂) (hn : (l₁.map key).Nodup) :
    List.insertionSort (fun a b => key a ≤ key b) l₁
      = List.insertionSort (fun a b => key a ≤ key b) l₂ := by
  haveI : IsTotal α (fun a b => key a ≤ key b) := ⟨fun a b => le_total _ _⟩
  haveI : IsTrans α (fun a b => key a ≤ key b) := ⟨fun _ _ _ h₁ h₂ => le_trans h₁ h₂⟩
  have hs₁ := List.sorted_insertionSort (fun a b => key a ≤ key b) l₁
  have hs₂ := List.sorted_insertionSort (fun a b => key a ≤ key b) l₂
  have hp₁ := List.perm_insertionSort (fun a b => key a ≤ key b) l₁
  have hp₂ := List.perm_insertionSort (fun a b => key a ≤ key b) l₂
  have hperm : List.Perm (List.insertionSort (fun a b => key a ≤ key b) l₁)
      (List.insertionSort (fun a b => key a ≤ key b) l₂) :=
    (hp₁.trans hp).trans hp₂.symm
  have hn₁ : ((List.insertionSort (fun a b => key a ≤ key b) l₁).map key).Nodup :=
    ((hp₁.map key).nodup_iff).mpr hn
  have hn₂ : ((List.insertionSort (fun a b => key a ≤ key b) l₂).map key).Nodup :=
    ((hperm.map key).nodup_iff).mp hn₁
  exact eq_of_perm_of_pairwise_lt hperm
    (pairwise_lt_of_sorted_nodup hs₁ hn₁) (pairwise_lt_of_sorted_nodup hs₂ hn₂)

/-- Membership in the closed integer interval list. -/
theorem mem_intRange {a b i : Int} : i ∈ intRange a b ↔ a ≤ i ∧ i ≤ b := by
  simp only [intRange, List.mem_map, List.mem_range]
  constructor
  · rintro ⟨k, hk, rfl⟩; omega
  · intro h; exact ⟨(i - a).toNat, by omega, by omega⟩

/-! ## Lemmas about validateChunkSequence -/

theorem sortInts_perm (l : List Int) : List.Perm (sortInts l) l :=
  List.perm_insertionSort _ l

theorem sortInts_sorted (l : List Int) :
    (sortInts l).Pairwise (fun a b : Int => a ≤ b) :=
  List.sorted_insertionSort _ l

/-- The last element of a `≤`-sorted integer list bounds every element. -/
theorem le_getLastD_of_sorted :
    ∀ {l : List Int} (d : Int), l.Pairwise (fun a b : Int => a ≤ b) →
      ∀ x ∈ l, x ≤ l.getLastD d := by
  intro l
  induction l with
  | nil => intro d _ x hx; simp at hx
  | cons a t ih =>
    intro d hs x hx
    rw [List.getLastD_cons]
    rcases List.mem_cons.mp hx with rfl | hxt
    · cases t with
      | nil => simp
      | cons b t' =>
        have hb : (b :: t').getLastD x ∈ b :: t' := by
          clear hx hs ih
          induction t' generalizing b with
          | nil => simp
          | cons c t'' ih' =>
            rw [List.getLastD_cons]
            exact List.mem_cons_of_mem b (ih' c)
        exact List.rel_of_pairwise_cons hs hb
    · exact ih a hs.of_cons x hxt

/-- The smallest present index: `vcsFirst` is a lower bound of the list. -/
theorem vcsFirst_le {l : List Int} (x : Int) (hx : x ∈ l) : vcsFirst l ≤ x := by
  have hs := sortInts_sorted l
  have hx' : x ∈ sortInts l := (sortInts_perm l).mem_iff.mpr hx
  unfold vcsFirst
  cases h : sortInts l with
  | nil => rw [h] at hx'; simp at hx'
  | cons a t =>
    rw [h] at hx' hs
    simp only [List.headD_cons]
    rcases List.mem_cons.mp hx' with rfl | hxt
    · omega
    · exact List.rel_of_pairwise_cons hs hxt

/-- The smallest present index is present. -/
theorem vcsFirst_mem {l : List Int} (hl : l ≠ []) : vcsFirst l ∈ l := by
  have hp := sortInts_perm l
  cases h : sortInts l with
  | nil =>
    rw [h] at hp
    exact absurd hp.symm.eq_nil hl
  | cons a t =>
    have : vcsFirst l = a := by rw [vcsFirst, h]; rfl
    rw [this]
    rw [h] at hp
    exact hp.mem_iff.mp (List.mem_cons_self a t)

/-- The largest present index: `vcsLast` is an upper bound of the list. -/
theorem le_vcsLast {l : List Int} (x : Int) (hx : x ∈ l) : x ≤ vcsLast l := by
  have hs := sortInts_sorted l
  have hx' : x ∈ sortInts l := (sortInts_perm l).mem_iff.mpr hx
  exact le_getLastD_of_sorted 0 hs x hx'

/-- The `gaps` field on a non-empty index list. -/
theorem validateChunkSequence_gaps {l : List Int} (hl : l ≠ []) :
    (validateChunkSequence l).gaps = vcsGaps l := by
  rw [validateChunkSequence, if_neg (by simpa using hl)]

/-- Membership in the gap report. -/
theorem mem_vcsGaps {l : List Int} (i : Int) :
    i ∈ vcsGaps l ↔ vcsFirst l ≤ i ∧ i ≤ vcsLast l ∧ i ∉ l := by
  simp only [vcsGaps, List.mem_filter, mem_intRange, decide_eq_true_eq,
    (sortInts_perm l).mem_iff, and_assoc]

/-- C6: for the chunk set with indices `[0, 1, 3]`, reassembly proceeds with
the valid subset in index order (payloads of chunks 0, 1, 3 concatenated in
that order, here from a scrambled fetch order) and the `gaps` field of the
sequence-validation result equals exactly `[2]`; in general, `gaps` lists
exactly the indices between the smallest and largest present index that are
missing, instead of the operation failing. -/
theorem sequence_gap_report :
    (validateChunkSequence [0, 1, 3]).gaps = [2] ∧
    (serverPlayback [rec3, rec0, rec1]).audioBytes = some [10, 11, 13] ∧
    (∀ l : List Int, l ≠ [] → ∀ i : Int,
      (i ∈ (validateChunkSequence l).gaps ↔
        vcsFirst l ≤ i ∧ i ≤ vcsLast l ∧ i ∉ l)) := by
  refine ⟨by decide, by decide, ?_⟩
  intro l hl i
  rw [validateChunkSequence_gaps hl]
  exact mem_vcsGaps i

/-- Witness for C6: the gap characterization applied to the concrete index
list `[0, 1, 3]` at index 2. -/
theorem sequence_gap_report_witness :
    2 ∈ (validateChunkSequence [0, 1, 3]).gaps ↔
      vcsFirst [0, 1, 3] ≤ 2 ∧ 2 ≤ vcsLast [0, 1, 3] ∧ 2 ∉ ([0, 1, 3] : List Int) :=
  sequence_gap_report.2.2 [0, 1, 3] (by decide) 2

/-- C10: sequence validation computes gaps only from the smallest present
index upward (`vcsFirst` really is the minimum of the list, and every
reported gap is at least it), so indices below the minimum are never
reported; a contiguous list with minimum greater than 0 such as `[1, 2, 3]`
is reported valid with no gaps — the lost recording head is invisible. -/
theorem gap_report_min_bounded :
    (∀ l : List Int, l ≠ [] → ∀ i ∈ (validateChunkSequence l).gaps, vcsFirst l ≤ i) ∧
    (∀ l : List Int, l ≠ [] → vcsFirst l ∈ l ∧ ∀ x ∈ l, vcsFirst l ≤ x) ∧
    (validateChunkSequence [1, 2, 3]).isValid = true ∧
    (validateChunkSequence [1, 2, 3]).gaps = [] := by
  refine ⟨?_, ?_, by decide, by decide⟩
  · intro l hl i hi
    rw [validateChunkSequence_gaps hl] at hi
    exact ((mem_vcsGaps i).mp hi).1
  · intro l hl
    exact ⟨vcsFirst_mem hl, fun x hx => vcsFirst_le x hx⟩

/-- Witness for C10: applied to the concrete list `[1, 3]` (gap report
`[2]`), whose minimum 1 bounds the reported gap 2. -/
theorem gap_report_min_bounded_witness :
    vcsFirst [1, 3] ≤ 2 ∧
      (vcsFirst [1, 3] ∈ ([1, 3] : List Int) ∧ ∀ x ∈ ([1, 3] : List Int), vcsFirst [1, 3] ≤ x) :=
  ⟨gap_report_min_bounded.1 [1, 3] (by decide) 2 (by decide),
   gap_report_min_bounded.2.1 [1, 3] (by decide)⟩

/-! ## Lemmas about the upload endpoint -/

theorem chunkIndexDecision_some_reject {L idx : Int} :
    chunkIndexDecision (some L) idx = ChunkDecision.reject ↔
      (idx < L - 1 ∨ L + 6 < idx) := by
  simp only [chunkIndexDecision]
  split_ifs with h1 h2 h3 <;> simp <;> omega

theorem chunkIndexDecision_some_silent {L idx : Int} :
    chunkIndexDecision (some L) idx = ChunkDecision.acceptSilent ↔ idx = L + 1 := by
  simp only [chunkIndexDecision]
  split_ifs with h1 h2 h3 <;> simp <;> omega

/-- The max query behind the sequencer: `lastIndex? = some L` means `L` is
the largest stored chunk index. -/
theorem lastIndex?_max {l : List ChunkRecord} {L : Int}
    (h : lastIndex? l = some L) :
    (∀ c ∈ l, c.chunkIndex ≤ L) ∧ ∃ c ∈ l, c.chunkIndex = L := by
  have hs := List.sorted_insertionSort (fun a b : Int => b ≤ a)
    (l.map (fun c => c.chunkIndex))
  have hp := List.perm_insertionSort (fun a b : Int => b ≤ a)
    (l.map (fun c => c.chunkIndex))
  unfold lastIndex? at h
  cases hsort : List.insertionSort (fun a b : Int => b ≤ a)
      (l.map (fun c => c.chunkIndex)) with
  | nil => rw [hsort] at h; simp at h
  | cons a t =>
    rw [hsort] at h hs hp
    simp only [List.head?_cons, Option.some.injEq] at h
    subst h
    constructor
    · intro c hc
      have hmem : c.chunkIndex ∈ a :: t :=
        hp.mem_iff.mpr (List.mem_map_of_mem (fun c => c.chunkIndex) hc)
      rcases List.mem_cons.mp hmem with h | h
      · omega
      · exact List.rel_of_pairwise_cons hs h
    · have hmem : a ∈ l.map (fun c => c.chunkIndex) :=
        hp.mem_iff.mp (List.mem_cons_self a t)
      rcases List.mem_map.mp hmem with ⟨c, hc, hL⟩
      exact ⟨c, hc, hL⟩

/-- An upload results in an HTTP 400 exactly when the index check rejects. -/
theorem postChunk_error_iff (db : DurableStore) (sid : String) (idx : Int)
    (bytes : List Nat) (d : ℚ) (tr : Option String) (now : Int) :
    (∃ e, postChunk db sid idx bytes d tr now = Except.error e) ↔
      chunkIndexDecision (lastIndex? (sessionChunks db sid)) idx
        = ChunkDecision.reject := by
  simp only [postChunk]
  by_cases hd : chunkIndexDecision (lastIndex? (sessionChunks db sid)) idx
      = ChunkDecision.reject
  · simp [hd]
  · simp only [hd, if_false]
    constructor
    · rintro ⟨e, he⟩
      split at he <;> simp at he
    · intro h; exact h.elim

/-- A successful upload records whether the index check warned. -/
theorem postChunk_ok_warned {db : DurableStore} {sid : String} {idx : Int}
    {bytes : List Nat} {d : ℚ} {tr : Option String} {now : Int} {r : UploadOk}
    (h : postChunk db sid idx bytes d tr now = Except.ok r) :
    r.warned = decide (chunkIndexDecision (lastIndex? (sessionChunks db sid)) idx
      = ChunkDecision.acceptWarn) := by
  simp only [postChunk] at h
  split at h
  · simp at h
  · split at h <;> (simp only [Except.ok.injEq] at h; subst h; rfl)

/-- A successful upload means the index check did not reject. -/
theorem postChunk_ok_not_reject {db : DurableStore} {sid : String} {idx : Int}
    {bytes : List Nat} {d : ℚ} {tr : Option String} {now : Int} {r : UploadOk}
    (h : postChunk db sid idx bytes d tr now = Except.ok r) :
    chunkIndexDecision (lastIndex? (sessionChunks db sid)) idx
      ≠ ChunkDecision.reject := by
  intro hd
  simp [postChunk, hd] at h

/-- C1: when the session's durable store already holds chunks with maximum
index `L`, the upload endpoint rejects (HTTP 400) exactly when the new index
is below `L - 1` or above `L + 6`, and accepts every index in `L - 1 .. L + 6`
— silently exactly for the expected index `L + 1`, as a warned
retry/tolerated variation otherwise. -/
theorem chunk_upload_index_window :
    ∀ (db : DurableStore) (sid : String) (idx : Int) (bytes : List Nat) (d : ℚ)
      (tr : Option String) (now : Int) (L : Int),
      lastIndex? (sessionChunks db sid) = some L →
      ((∀ c ∈ sessionChunks db sid, c.chunkIndex ≤ L) ∧
       ((∃ e, postChunk db sid idx bytes d tr now = Except.error e) ↔
         (idx < L - 1 ∨ L + 6 < idx)) ∧
       (∀ r, postChunk db sid idx bytes d tr now = Except.ok r →
         (r.warned = false ↔ idx = L + 1))) := by
  intro db sid idx bytes d tr now L h
  refine ⟨(lastIndex?_max h).1, ?_, ?_⟩
  · rw [postChunk_error_iff, h, chunkIndexDecision_some_reject]
  · intro r hr
    have hw := postChunk_ok_warned hr
    have hnr := postChunk_ok_not_reject hr
    rw [h] at hw hnr
    rw [hw]
    cases hdec : chunkIndexDecision (some L) idx with
    | acceptSilent =>
      simp only [hdec, decide_eq_false_iff_not]
      rw [chunkIndexDecision_some_silent] at hdec
      simp [hdec]
    | acceptWarn =>
      have hne : idx ≠ L + 1 := by
        intro hidx
        have hsil := chunkIndexDecision_some_silent.mpr hidx
        rw [hdec] at hsil
        exact absurd hsil (by simp)
      simp [hdec, hne]
    | reject => exact absurd hdec hnr

/-- Witness for C1: with one stored chunk at index 0 (`L = 0`), index 7 is
rejected (since `7 > 0 + 6`) while an in-window retry would not be. -/
theorem chunk_upload_index_window_witness :
    (∀ c ∈ sessionChunks demoDb "s", c.chunkIndex ≤ 0) ∧
      ((∃ e, postChunk demoDb "s" 7 [2] 30 none 0 = Except.error e) ↔
        ((7 : Int) < 0 - 1 ∨ (0 : Int) + 6 < 7)) ∧
      (∀ r, postChunk demoDb "s" 7 [2] 30 none 0 = Except.ok r →
        (r.warned = false ↔ (7 : Int) = 0 + 1)) :=
  chunk_upload_index_window demoDb "s" 7 [2] 30 none 0 0 (by decide)

/-- C9: when a session has no stored chunks yet, the first-chunk check of
the upload endpoint rejects exactly the parsed indices strictly greater
than 5; every other parsed value — negative integers and the `NaN` of a
non-numeric `chunkIndex` field included — passes validation and a chunk
record is created under the derived id for that value. -/
theorem first_chunk_check_window :
    ∀ (sid : String) (x : JSNum) (bytes : List Nat) (d : ℚ) (now : Int),
      (uploadFirstChunk sid x bytes d now = none ↔ ∃ k, x = some k ∧ 5 < k) ∧
      (∀ rec, uploadFirstChunk sid x bytes d now = some rec →
        rec.id = sid ++ "-" ++ jsNumToString x ∧ rec.chunkIndex = x) := by
  intro sid x bytes d now
  constructor
  · cases x with
    | none => simp [uploadFirstChunk, firstChunkRejected, jsNeB, jsGtB]
    | some k =>
      simp only [uploadFirstChunk, firstChunkRejected, jsNeB, jsGtB, Bool.and_eq_true,
        decide_eq_true_eq]
      constructor
      · intro h
        split at h
        · rename_i hc
          exact ⟨k, rfl, hc.2⟩
        · simp at h
      · rintro ⟨k', hk', h5⟩
        injection hk' with hk'
        subst hk'
        rw [if_pos]
        exact ⟨by omega, h5⟩
  · intro rec h
    unfold uploadFirstChunk at h
    split at h
    · simp at h
    · simp only [Option.some.injEq] at h
      subst h
      exact ⟨rfl, rfl⟩

/-- Witness for C9: a negative index `-3` and a `NaN` index both pass the
first-chunk check; the `NaN` upload creates the row with id `"s-NaN"`. -/
theorem first_chunk_check_window_witness :
    ((uploadFirstChunk "s" (some (-3)) [1] 30 0 = none ↔
        ∃ k, (some (-3) : JSNum) = some k ∧ 5 < k) ∧
      (demoNaNRec.id = "s" ++ "-" ++ jsNumToString none ∧
        demoNaNRec.chunkIndex = none)) :=
  ⟨(first_chunk_check_window "s" (some (-3)) [1] 30 0).1,
   (first_chunk_check_window "s" none [1] 30 0).2 demoNaNRec rfl⟩

/-- Filtering rows by id commutes with a map that preserves ids. -/
theorem filter_id_map (f : ChunkRecord → ChunkRecord)
    (hf : ∀ c, (f c).id = c.id) (key : String) :
    ∀ l : List ChunkRecord,
      (l.map f).filter (fun c => c.id == key)
        = (l.filter (fun c => c.id == key)).map f := by
  intro l
  induction l with
  | nil => rfl
  | cons a t ih =>
    simp only [List.map_cons, List.filter_cons, hf a]
    cases h : (a.id == key) <;> simp [h, ih]

/-- C2: chunk upload is idempotent per `(sessionId, chunkIndex)`: the stored
id is derived from the pair, so a second successful upload of the same index
leaves exactly one row under that id — holding the second payload — and the
session's `chunksCount` is incremented exactly once (on the create, never on
the overwrite). -/
theorem chunk_upload_idempotent :
    ∀ (db : DurableStore) (sid : String) (idx : Int)
      (b₁ : List Nat) (d₁ : ℚ) (t₁ : Option String) (n₁ : Int)
      (b₂ : List Nat) (d₂ : ℚ) (t₂ : Option String) (n₂ : Int)
      (r₁ r₂ : UploadOk),
      (∀ c ∈ db.chunks, c.id ≠ chunkId sid idx) →
      postChunk db sid idx b₁ d₁ t₁ n₁ = Except.ok r₁ →
      postChunk r₁.db sid idx b₂ d₂ t₂ n₂ = Except.ok r₂ →
      ((r₂.db.chunks.filter (fun c => c.id == chunkId sid idx)).map
          (fun c => c.audioData) = [some b₂] ∧
       r₂.db.chunksCount sid = db.chunksCount sid + 1 ∧
       r₁.isNewChunk = true ∧ r₂.isNewChunk = false) := by
  intro db sid idx b₁ d₁ t₁ n₁ b₂ d₂ t₂ n₂ r₁ r₂ hfresh h₁ h₂
  have hany₁ : db.chunks.any (fun c => c.id == chunkId sid idx) = false := by
    simp only [List.any_eq_false, beq_iff_eq]
    exact hfresh
  simp only [postChunk] at h₁
  split at h₁
  · simp at h₁
  · rw [hany₁] at h₁
    simp only [Bool.false_eq_true, if_false, Except.ok.injEq] at h₁
    subst h₁
    simp only [postChunk] at h₂
    split at h₂
    · simp at h₂
    · have hany₂ :
        (db.chunks ++
          [({ id := chunkId sid idx, sessionId := sid, chunkIndex := idx,
              audioData := some b₁, duration := d₁,
              transcript := jsOrNull t₁, timestamp := n₁ } : ChunkRecord)]).any
            (fun c => c.id == chunkId sid idx) = true := by
        simp [List.any_append]
      simp only [hany₂, if_true, Except.ok.injEq] at h₂
      subst h₂
      refine ⟨?_, ?_, rfl, rfl⟩
      · rw [filter_id_map]
        · rw [List.filter_append]
          rw [List.filter_eq_nil_iff.mpr (by
            intro c hc
            simp only [beq_iff_eq]
            exact hfresh c hc)]
          simp
        · intro c
          cases h : (c.id == chunkId sid idx) <;> simp [h]
      · simp

/-- Witness for C2: uploading index 0 twice to an empty store — the second
upload overwrites the payload in place and the count stays at 1. -/
theorem chunk_upload_idempotent_witness :
    ((demoR2.db.chunks.filter (fun c => c.id == chunkId "s" 0)).map
        (fun c => c.audioData) = [some [9]] ∧
     demoR2.db.chunksCount "s" = emptyDb.chunksCount "s" + 1 ∧
     demoR1.isNewChunk = true ∧ demoR2.isNewChunk = false) :=
  chunk_upload_idempotent emptyDb "s" 0 [1] 30 none 0 [9] 31 none 5 demoR1 demoR2
    (by intro c hc; simp [emptyDb] at hc) rfl rfl

/-! ## Lemmas about reassembly -/

/-- Two permuted lists that are both sorted on a duplicate-free integer key
are equal. -/
theorem eq_of_perm_of_sorted_key {α : Type} {key : α → Int} {M N : List α}
    (hperm : List.Perm M N)
    (hsM : M.Pairwise (fun a b => key a ≤ key b))
    (hsN : N.Pairwise (fun a b => key a ≤ key b))
    (hn : (M.map key).Nodup) : M = N :=
  eq_of_perm_of_pairwise_lt hperm (pairwise_lt_of_sorted_nodup hsM hn)
    (pairwise_lt_of_sorted_nodup hsN (((hperm.map key).nodup_iff).mp hn))

theorem serverPlayback_chunks {l : List ChunkRecord} (hl : l ≠ []) :
    (serverPlayback l).chunks = sortByIndex ((l.map serverToPlayback).filter
      (fun c => decide (0 < c.blob.length ∧ 0 < c.duration))) := by
  simp only [serverPlayback]
  rw [if_neg (by simpa [List.length_eq_zero] using hl)]

theorem serverPlayback_totalDuration {l : List ChunkRecord} (hl : l ≠ []) :
    (serverPlayback l).totalDuration
      = ((serverPlayback l).chunks.map (fun c => c.duration)).sum := by
  simp only [serverPlayback]
  rw [if_neg (by simpa [List.length_eq_zero] using hl)]

theorem serverPlayback_audioBytes {l : List ChunkRecord} (hl : l ≠ []) :
    (serverPlayback l).audioBytes
      = some (((serverPlayback l).chunks.map (fun c => c.blob)).flatten) := by
  simp only [serverPlayback]
  rw [if_neg (by simpa [List.length_eq_zero] using hl)]

/-- The reassembled output is independent of the order in which the server
returned the rows, as long as the session's chunk indices are duplicate-free. -/
theorem serverPlayback_perm (l l' : List ChunkRecord) (hp : List.Perm l' l)
    (hn : (l.map (fun c => c.chunkIndex)).Nodup) :
    serverPlayback l' = serverPlayback l := by
  by_cases hl : l = []
  · subst hl
    rw [hp.eq_nil]
  · have hl' : l' ≠ [] := fun h => hl (by rw [h] at hp; exact hp.symm.eq_nil)
    have hkeep : List.Perm
        ((l'.map serverToPlayback).filter
          (fun c => decide (0 < c.blob.length ∧ 0 < c.duration)))
        ((l.map serverToPlayback).filter
          (fun c => decide (0 < c.blob.length ∧ 0 < c.duration))) :=
      (hp.map serverToPlayback).filter _
    have hkeys :
        (((l'.map serverToPlayback).filter
            (fun c => decide (0 < c.blob.length ∧ 0 < c.duration))).map
          (fun c => c.index)).Nodup := by
      have hsub : List.Sublist
          (((l'.map serverToPlayback).filter
              (fun c => decide (0 < c.blob.length ∧ 0 < c.duration))).map
            (fun c => c.index))
          ((l'.map serverToPlayback).map (fun c => c.index)) :=
        (List.filter_sublist _).map _
      have hmm : (l'.map serverToPlayback).map (fun c => c.index)
          = l'.map (fun c => c.chunkIndex) := by
        simp [List.map_map, serverToPlayback]
      have hn' : (l'.map (fun c => c.chunkIndex)).Nodup :=
        ((hp.map (fun c => c.chunkIndex)).nodup_iff).mpr hn
      rw [hmm] at hsub
      exact hn'.sublist hsub
    have hsort : sortByIndex
        ((l'.map serverToPlayback).filter
          (fun c => decide (0 < c.blob.length ∧ 0 < c.duration)))
        = sortByIndex
            ((l.map serverToPlayback).filter
              (fun c => decide (0 < c.blob.length ∧ 0 < c.duration))) := by
      simp only [sortByIndex]
      exact insertionSort_key_eq (fun c => c.index) hkeep hkeys
    simp only [serverPlayback]
    rw [if_neg (by simpa [List.length_eq_zero] using hl'),
      if_neg (by simpa [List.length_eq_zero] using hl), hsort]

/-- C3: reassembling `N` valid chunks yields `totalDuration` equal to the
sum of their durations and an output byte stream of length equal to the sum
of the payload lengths, with the payloads concatenated in ascending
chunk-index order, regardless of the order the chunks came out of durable
storage (server path) or of the IndexedDB `getAll` (local path, which sorts
before returning). -/
theorem reassembly_concat_sum :
    (∀ (l l' : List ChunkRecord), List.Perm l' l →
      (∀ c ∈ l, 0 < (c.audioData.getD []).length ∧ 0 < c.duration) →
      ((l.map (fun c => c.chunkIndex)).Nodup) → l ≠ [] →
      (serverPlayback l' = serverPlayback l ∧
       ((serverPlayback l).chunks).Pairwise (fun a b => a.index ≤ b.index) ∧
       (serverPlayback l).totalDuration = (l.map (fun c => c.duration)).sum ∧
       (serverPlayback l).audioBytes
         = some (((serverPlayback l).chunks.map (fun c => c.blob)).flatten) ∧
       (((serverPlayback l).chunks.map (fun c => c.blob)).flatten).length
         = (l.map (fun c => (c.audioData.getD []).length)).sum)) ∧
    (∀ (stored stored' : List LocalChunkData) (sid : String),
      List.Perm stored' stored →
      (((stored.filter (fun c => decide (c.sessionId = sid))).map
        (fun c => c.chunkIndex)).Nodup) →
      getChunksOkSorted stored' sid = getChunksOkSorted stored sid) := by
  constructor
  · intro l l' hp hvalid hnod hl
    have hfil : (l.map serverToPlayback).filter
        (fun c => decide (0 < c.blob.length ∧ 0 < c.duration))
        = l.map serverToPlayback := by
      apply List.filter_eq_self.mpr
      intro c hc
      rcases List.mem_map.mp hc with ⟨c₀, hc₀, rfl⟩
      simpa [serverToPlayback] using hvalid c₀ hc₀
    have hchunks := serverPlayback_chunks hl
    rw [hfil] at hchunks
    have hsorted : List.Perm (sortByIndex (l.map serverToPlayback))
        (l.map serverToPlayback) := List.perm_insertionSort _ _
    refine ⟨serverPlayback_perm l l' hp hnod, ?_, ?_, ?_, ?_⟩
    · rw [hchunks, sortByIndex]
      exact List.sorted_insertionSort _ _
    · rw [serverPlayback_totalDuration hl, hchunks]
      rw [(hsorted.map (fun c => c.duration)).sum_eq]
      simp [List.map_map, Function.comp_def, serverToPlayback]
    · rw [serverPlayback_audioBytes hl, hchunks]
    · rw [hchunks, List.length_flatten, List.map_map]
      rw [(hsorted.map (List.length ∘ fun c => c.blob)).sum_eq]
      simp [List.map_map, Function.comp_def, serverToPlayback]
  · intro stored stored' sid hp hn
    have hkeep : List.Perm
        (stored'.filter (fun c => decide (c.sessionId = sid)))
        (stored.filter (fun c => decide (c.sessionId = sid))) := hp.filter _
    have hn' : ((stored'.filter (fun c => decide (c.sessionId = sid))).map
        (fun c => c.chunkIndex)).Nodup :=
      ((hkeep.map (fun c => c.chunkIndex)).nodup_iff).mpr hn
    simp only [getChunksOkSorted]
    exact insertionSort_key_eq (fun c => c.chunkIndex) hkeep hn'

/-- Witness for C3: two valid chunks with indices 0 and 1 fetched in the
scrambled order `[rec1, rec0]` reassemble identically to `[rec0, rec1]`,
with `totalDuration 60` and the bytes in index order. -/
theorem reassembly_concat_sum_witness :
    (serverPlayback [rec1, rec0] = serverPlayback [rec0, rec1] ∧
     ((serverPlayback [rec0, rec1]).chunks).Pairwise (fun a b => a.index ≤ b.index) ∧
     (serverPlayback [rec0, rec1]).totalDuration
       = ([rec0, rec1].map (fun c => c.duration)).sum ∧
     (serverPlayback [rec0, rec1]).audioBytes
       = some (((serverPlayback [rec0, rec1]).chunks.map (fun c => c.blob)).flatten) ∧
     (((serverPlayback [rec0, rec1]).chunks.map (fun c => c.blob)).flatten).length
       = ([rec0, rec1].map (fun c => (c.audioData.getD []).length)).sum) :=
  (reassembly_concat_sum.1 [rec0, rec1] [rec1, rec0]
    (List.Perm.swap rec0 rec1 []) (by decide) (by decide) (by decide))

/-- C4 counterexample: `zeroDurationChunk` has audio bytes but non-positive
duration, yet the transcribe route keeps it in the combined transcription
input — removing it changes the combined buffer from `[7]` to `[]`, so the
claim that non-positive-duration chunks are excluded from the transcription
input (and that removing them never changes it) fails. -/
theorem transcribe_keeps_zero_duration :
    zeroDurationChunk.duration ≤ 0 ∧
    transcribeWithAudio [zeroDurationChunk] = [zeroDurationChunk] ∧
    transcribeCombined [zeroDurationChunk] = [7] ∧
    transcribeCombined [] = [] := by
  refine ⟨le_refl 0, by decide, by decide, by decide⟩

/-- C4 (amended): reassembly excludes every zero-payload chunk from both the
playback output (local and server paths) and the combined transcription
input, and excludes non-positive-duration chunks from the server playback
output only; removing a chunk that the respective filter excludes leaves the
output (and, for playback, the totalDuration) unchanged. -/
theorem reassembly_filter_amended :
    (∀ (l : List ChunkRecord), ∀ c ∈ transcribeWithAudio l,
        0 < (c.audioData.getD []).length) ∧
    (∀ (l : List ChunkRecord), ∀ c ∈ (serverPlayback l).chunks,
        0 < c.blob.length ∧ 0 < c.duration) ∧
    (∀ (L : List LocalChunkData) (d : ChunkPlaybackData), localPlayback L = some d →
        ∀ c ∈ d.chunks, 0 < c.blob.length) ∧
    (∀ (l₁ l₂ : List ChunkRecord) (c : ChunkRecord),
        (((l₁ ++ l₂).map (fun c => c.chunkIndex)).Nodup) →
        (c.audioData.getD []).length = 0 →
        transcribeCombined (l₁ ++ c :: l₂) = transcribeCombined (l₁ ++ l₂)) ∧
    (∀ (l₁ l₂ : List ChunkRecord) (c : ChunkRecord),
        ((c.audioData.getD []).length = 0 ∨ c.duration ≤ 0) →
        ((serverPlayback (l₁ ++ c :: l₂)).totalDuration
            = (serverPlayback (l₁ ++ l₂)).totalDuration ∧
         (serverPlayback (l₁ ++ c :: l₂)).audioBytes.getD []
            = (serverPlayback (l₁ ++ l₂)).audioBytes.getD [])) := by
  refine ⟨?_, ?_, ?_, ?_, ?_⟩
  · intro l c hc
    have := List.mem_filter.mp hc
    simpa using this.2
  · intro l c hc
    by_cases hl : l = []
    · subst hl
      simp [serverPlayback] at hc
    · rw [serverPlayback_chunks hl, sortByIndex] at hc
      have hmem := (List.perm_insertionSort
        (fun a b : PlaybackChunk => a.index ≤ b.index) _).mem_iff.mp hc
      have := List.mem_filter.mp hmem
      simpa using this.2
  · intro L d hd c hc
    simp only [localPlayback] at hd
    split at hd
    · simp at hd
    · split at hd
      · simp at hd
      · simp only [Option.some.injEq] at hd
        subst hd
        simp only at hc
        rcases List.mem_map.mp hc with ⟨c₀, hc₀, rfl⟩
        simpa using (List.mem_filter.mp hc₀).2
  · intro l₁ l₂ c hn hc
    have htf : ¬(0 < (c.audioData.getD []).length) := by omega
    have hXs : (sortRecords (l₁ ++ c :: l₂)).Pairwise
        (fun a b : ChunkRecord => a.chunkIndex ≤ b.chunkIndex) :=
      List.sorted_insertionSort _ _
    have hYs : (sortRecords (l₁ ++ l₂)).Pairwise
        (fun a b : ChunkRecord => a.chunkIndex ≤ b.chunkIndex) :=
      List.sorted_insertionSort _ _
    have hXfs : (transcribeWithAudio (l₁ ++ c :: l₂)).Pairwise
        (fun a b : ChunkRecord => a.chunkIndex ≤ b.chunkIndex) :=
      hXs.sublist (List.filter_sublist _)
    have hYfs : (transcribeWithAudio (l₁ ++ l₂)).Pairwise
        (fun a b : ChunkRecord => a.chunkIndex ≤ b.chunkIndex) :=
      hYs.sublist (List.filter_sublist _)
    have hmid : (l₁ ++ c :: l₂).filter
        (fun r : ChunkRecord => decide (0 < (r.audioData.getD []).length))
        = (l₁ ++ l₂).filter
            (fun r : ChunkRecord => decide (0 < (r.audioData.getD []).length)) := by
      simp [List.filter_append, List.filter_cons, htf]
    have hperm : List.Perm (transcribeWithAudio (l₁ ++ c :: l₂))
        (transcribeWithAudio (l₁ ++ l₂)) := by
      have h1 := (List.perm_insertionSort
        (fun a b : ChunkRecord => a.chunkIndex ≤ b.chunkIndex)
        (l₁ ++ c :: l₂)).filter
        (fun r : ChunkRecord => decide (0 < (r.audioData.getD []).length))
      have h2 := (List.perm_insertionSort
        (fun a b : ChunkRecord => a.chunkIndex ≤ b.chunkIndex)
        (l₁ ++ l₂)).filter
        (fun r : ChunkRecord => decide (0 < (r.audioData.getD []).length))
      rw [hmid] at h1
      exact h1.trans h2.symm
    have hnodX : ((transcribeWithAudio (l₁ ++ l₂)).map
        (fun c => c.chunkIndex)).Nodup := by
      have hsub : List.Sublist
          ((transcribeWithAudio (l₁ ++ l₂)).map (fun c => c.chunkIndex))
          ((sortRecords (l₁ ++ l₂)).map (fun c => c.chunkIndex)) :=
        (List.filter_sublist _).map _
      have hpm : ((sortRecords (l₁ ++ l₂)).map (fun c => c.chunkIndex)).Nodup :=
        (((List.perm_insertionSort _ (l₁ ++ l₂)).map
          (fun c => c.chunkIndex)).nodup_iff).mpr hn
      exact hpm.sublist hsub
    have heq : transcribeWithAudio (l₁ ++ c :: l₂) = transcribeWithAudio (l₁ ++ l₂) :=
      eq_of_perm_of_sorted_key hperm hXfs hYfs
        (((hperm.map (fun c => c.chunkIndex)).nodup_iff).mpr hnodX)
    unfold transcribeCombined
    rw [heq]
  · intro l₁ l₂ c hc
    have hpb : ¬(0 < (serverToPlayback c).blob.length ∧
        0 < (serverToPlayback c).duration) := by
      rintro ⟨h1, h2⟩
      rcases hc with h | h
      · rw [serverToPlayback] at h1
        simp only at h1
        omega
      · rw [serverToPlayback] at h2
        simp only at h2
        exact absurd h2 (not_lt.mpr h)
    by_cases hA : (l₁ ++ l₂) = []
    · rcases List.append_eq_nil.mp hA with ⟨rfl, rfl⟩
      constructor
      · simp [serverPlayback, sortByIndex, List.filter_cons, hpb]
      · simp [serverPlayback, sortByIndex, List.filter_cons, hpb]
    · have hplus : (l₁ ++ c :: l₂) ≠ [] := by simp
      have hfeq : ((l₁ ++ c :: l₂).map serverToPlayback).filter
          (fun ch => decide (0 < ch.blob.length ∧ 0 < ch.duration))
          = ((l₁ ++ l₂).map serverToPlayback).filter
              (fun ch => decide (0 < ch.blob.length ∧ 0 < ch.duration)) := by
        simp [List.map_append, List.filter_append, List.filter_cons, hpb]
      constructor
      · rw [serverPlayback_totalDuration hplus, serverPlayback_totalDuration hA,
          serverPlayback_chunks hplus, serverPlayback_chunks hA, hfeq]
      · rw [serverPlayback_audioBytes hplus, serverPlayback_audioBytes hA,
          serverPlayback_chunks hplus, serverPlayback_chunks hA, hfeq]

/-- Witness for the amended C4: removing the empty-payload chunk from the
transcription input, and the zero-duration chunk from the playback input,
leaves the respective outputs unchanged. -/
theorem reassembly_filter_amended_witness :
    (transcribeCombined ([rec0] ++ emptyAudioChunk :: [])
        = transcribeCombined ([rec0] ++ []) ∧
     ((serverPlayback ([rec0] ++ zeroDurationChunk :: [])).totalDuration
        = (serverPlayback ([rec0] ++ [])).totalDuration ∧
      (serverPlayback ([rec0] ++ zeroDurationChunk :: [])).audioBytes.getD []
        = (serverPlayback ([rec0] ++ [])).audioBytes.getD [])) :=
  ⟨reassembly_filter_amended.2.2.2.1 [rec0] [] emptyAudioChunk (by decide) (by decide),
   reassembly_filter_amended.2.2.2.2 [rec0] [] zeroDurationChunk (Or.inr (le_refl 0))⟩

/-! ## Local-first reassembly (C5) -/

theorem localPlayback_eq_none (L : List LocalChunkData) :
    localPlayback L = none ↔
      L.filter (fun c => decide (0 < c.blob.length)) = [] := by
  by_cases h0 : L.length = 0
  · rw [List.length_eq_zero] at h0
    subst h0
    simp [localPlayback]
  · simp only [localPlayback, if_neg h0]
    split
    · rename_i hc
      simp only [List.length_map, List.length_eq_zero] at hc
      simp [hc]
    · rename_i hc
      simp only [List.length_map, List.length_eq_zero] at hc
      simp [hc]

/-- C5: reassembly consults the local chunk store first, and falls back to
fetching the session's chunks from durable server storage exactly when the
local store yields zero usable (non-empty) chunks; when the local store
yields at least one non-empty chunk, its result is returned and the server
is not consulted. -/
theorem playback_local_first_fallback :
    ∀ (localFetched : List LocalChunkData) (serverChunks : List ChunkRecord),
      (((getChunksForPlayback localFetched serverChunks).2 = true) ↔
        localFetched.filter (fun c => decide (0 < c.blob.length)) = []) ∧
      (∀ d, localPlayback localFetched = some d →
        getChunksForPlayback localFetched serverChunks = (d, false)) := by
  intro L S
  constructor
  · rw [← localPlayback_eq_none L]
    unfold getChunksForPlayback
    cases h : localPlayback L <;> simp [h]
  · intro d hd
    unfold getChunksForPlayback
    rw [hd]

/-- Playback data produced from the single cached demo chunk. -/
def demoPlayback : ChunkPlaybackData :=
  { chunks := [{ blob := [1], index := 0, duration := 30, timestamp := 0 }],
    totalDuration := 30, audioBytes := some [1], error := none }

/-- Witness for C5: one usable cached chunk makes reassembly return the
local result without consulting the server. -/
theorem playback_local_first_fallback_witness :
    getChunksForPlayback [demoLocalChunk] [] = (demoPlayback, false) :=
  (playback_local_first_fallback [demoLocalChunk] []).2 demoPlayback
    (by simp [localPlayback, demoLocalChunk, demoPlayback])

/-! ## Best-effort local store (C7) -/

/-- C7: every LocalChunkStore operation is a total function into a result
value (the embedding has no exceptional exit): under every failing backend
condition it resolves to `success = false` (or an empty chunk list) carrying
an error message and leaves the store untouched, and under a working backend
it succeeds. -/
theorem local_store_total_results :
    ∀ (env : IDBEnv) (store : List LocalChunkData) (chunk : LocalChunkData)
      (sid : String),
      (env ≠ IDBEnv.ok →
        ((storeChunk env store chunk).1.success = false ∧
         (storeChunk env store chunk).1.error.isSome = true ∧
         (storeChunk env store chunk).2 = store) ∧
        ((getChunks env store sid).chunks = [] ∧
         (getChunks env store sid).error.isSome = true) ∧
        ((deleteChunks env store sid).1.success = false ∧
         (deleteChunks env store sid).1.error.isSome = true ∧
         (deleteChunks env store sid).2 = store)) ∧
      (env = IDBEnv.ok →
        ((storeChunk env store chunk).1.success = true ∧
         (deleteChunks env store sid).1.success = true ∧
         (getChunks env store sid).error = none)) := by
  intro env store chunk sid
  cases env <;> simp [storeChunk, getChunks, deleteChunks]

/-- Witness for C7: the unavailable-backend failure results and the
working-backend success results at concrete inputs. -/
theorem local_store_total_results_witness :
    (((storeChunk IDBEnv.unavailable [] demoLocalChunk).1.success = false ∧
      (storeChunk IDBEnv.unavailable [] demoLocalChunk).1.error.isSome = true ∧
      (storeChunk IDBEnv.unavailable [] demoLocalChunk).2 = []) ∧
     ((getChunks IDBEnv.unavailable [] "s").chunks = [] ∧
      (getChunks IDBEnv.unavailable [] "s").error.isSome = true) ∧
     ((deleteChunks IDBEnv.unavailable [] "s").1.success = false ∧
      (deleteChunks IDBEnv.unavailable [] "s").1.error.isSome = true ∧
      (deleteChunks IDBEnv.unavailable [] "s").2 = [])) ∧
    ((storeChunk IDBEnv.ok [] demoLocalChunk).1.success = true ∧
     (deleteChunks IDBEnv.ok [] "s").1.success = true ∧
     (getChunks IDBEnv.ok [] "s").error = none) :=
  ⟨(local_store_total_results IDBEnv.unavailable [] demoLocalChunk "s").1 (by decide),
   (local_store_total_results IDBEnv.ok [] demoLocalChunk "s").2 rfl⟩

/-! ## Clean stop (C8) -/

/-- The wait loop of `stop` never exceeds the 10-second cap. -/
theorem stopWaitGo_le (p : Nat → Nat) :
    ∀ (fuel t : Nat), t ≤ maxWaitTime → t % 500 = 0 →
      stopWaitGo p fuel t ≤ maxWaitTime := by
  intro fuel
  induction fuel with
  | zero => intro t ht _; simpa [stopWaitGo] using ht
  | succ n ih =>
    intro t ht hm
    rw [stopWaitGo]
    split
    · rename_i hcond
      exact ih (t + 500) (by simp [maxWaitTime] at ht hcond ⊢; omega)
        (by omega)
    · simpa using ht

/-- C8: every clean stop of a recording waits a bounded time — at most the
10-second `maxWaitTime` — for in-flight chunk uploads, whatever their
completion behaviour, and the persisted RecordingState of the session is
deleted before `stop` returns (the remaining states contain no entry for the
session, regardless of how many uploads were still pending). -/
theorem stop_bounded_wait_deletes_state :
    ∀ (sid : String) (states : List RecordingStateData) (pendingAt : Nat → Nat),
      ((stopRecording IDBEnv.ok sid states pendingAt).waitedMs ≤ maxWaitTime ∧
       (stopRecording IDBEnv.ok sid states pendingAt).statesAfter
         = states.filter (fun s => decide (s.sessionId ≠ sid)) ∧
       (∀ s ∈ (stopRecording IDBEnv.ok sid states pendingAt).statesAfter,
         s.sessionId ≠ sid)) := by
  intro sid states p
  refine ⟨stopWaitGo_le p 20 0 (by simp [maxWaitTime]) (by simp), rfl, ?_⟩
  intro s hs
  simp only [stopRecording, deleteRecordingState] at hs
  have := (List.mem_filter.mp hs).2
  simpa using this

/-- Witness for C8: stopping session `a` with two persisted states and no
pending uploads removes exactly the `a` entry; the surviving entry is not
session `a`. -/
theorem stop_bounded_wait_deletes_state_witness :
    demoStateB.sessionId ≠ "a" :=
  (stop_bounded_wait_deletes_state "a" [demoStateA, demoStateB] (fun _ => 0)).2.2
    demoStateB (by decide)

end TransScript
